import Mathlib

/-!
# Friend requests and friendships (backend/controllers/friendController.js)

A shallow embedding of the friend controller.  The relational store is a
record of three tables (users, friend edges, friend requests), each a list of
rows in insertion order.  Every handler is a function from the store before
the call to the store after it, paired with the HTTP response.  The ORM calls
used by the controller (`findByPk`, `findOne`, `findAll`, `create`, `save`)
are total functions on the tables: the `catch` branch of each handler (a
storage failure, answered with 500) is outside the model.

Keys are natural numbers.  The acting user `req.user.id` and the keys read from
the tables are numbers; the value `req.body.targetUserId` is whatever JSON value
the body holds and is not validated by the handler, so it is kept as it arrives
(`TargetUserId`: a number, or a string holding a numeral).  In the same way the
value `req.body.status` is any value of the status column.  The primary key of a
new friend request is one more than the largest key in the table.  The column `id` is the primary key
of the request table: statements about an existing request assume that the keys
of the table are pairwise distinct (`Store.PrimaryKey`), which every controller
operation preserves (`primaryKey_reachable`).

The handler `getUsers` only reads the user table and no statement below is about
its result, so it appears as an operation that leaves the store unchanged.
-/

namespace IChat

/-! ## Data model -/

/-- Modelled from the spec: the status column of a friend request.  The model file
models/FriendRequest.js is not among the sources; the spec gives
status ∈ {pending, accepted, rejected}. -/
inductive RequestStatus where
  | pending
  | accepted
  | rejected
  deriving DecidableEq, Repr

/-- Modelled from the spec: the status column of a friendship edge.  The model file
models/Friend.js is not among the sources; the spec speaks of
"accepted-or-pending" friendship edges.  The controller itself only ever writes
and reads the value accepted. -/
inductive FriendStatus where
  | pending
  | accepted
  deriving DecidableEq, Repr

/-- Row of the user table, with the four columns the controller reads. -/
structure User where
  id : Nat
  username : String
  display_name : String
  status : String
  deriving DecidableEq, Repr

/-- Row of the friend table: one directed friendship edge. -/
structure Friend where
  user_id : Nat
  friend_id : Nat
  status : FriendStatus
  deriving DecidableEq, Repr

/-- Row of the friend request table. -/
structure FriendRequest where
  id : Nat
  sender_id : Nat
  receiver_id : Nat
  status : RequestStatus
  deriving DecidableEq, Repr

/-- The relational store shared by all handlers. -/
structure Store where
  users : List User
  friends : List Friend
  requests : List FriendRequest
  deriving DecidableEq, Repr

/-- Primary keys of the friend request table are pairwise distinct. -/
def Store.PrimaryKey (s : Store) : Prop :=
  (s.requests.map (fun r => r.id)).Nodup

instance (s : Store) : Decidable s.PrimaryKey := by
  unfold Store.PrimaryKey
  infer_instance

/-! ## ORM calls -/

/-- The call `User.findByPk(pk)`. -/
def User.findByPk (users : List User) (pk : Nat) : Option User :=
  users.find? (fun u => decide (u.id = pk))

/-- The call `Friend.findOne({ where })`: the first row satisfying the clause. -/
def Friend.findOne (friends : List Friend) (clause : Friend → Bool) : Option Friend :=
  friends.find? clause

/-- The call `Friend.findAll({ where })`. -/
def Friend.findAll (friends : List Friend) (clause : Friend → Bool) : List Friend :=
  friends.filter clause

/-- The call `Friend.create({ user_id, friend_id, status })`. -/
def Friend.create (friends : List Friend) (user_id friend_id : Nat) (status : FriendStatus) :
    List Friend :=
  friends ++ [{ user_id := user_id, friend_id := friend_id, status := status }]

/-- The call `FriendRequest.findByPk(id)`. -/
def FriendRequest.findByPk (requests : List FriendRequest) (pk : Nat) : Option FriendRequest :=
  requests.find? (fun r => decide (r.id = pk))

/-- The call `FriendRequest.findOne({ where })`. -/
def FriendRequest.findOne (requests : List FriendRequest) (clause : FriendRequest → Bool) :
    Option FriendRequest :=
  requests.find? clause

/-- The call `FriendRequest.findAll({ where })`. -/
def FriendRequest.findAll (requests : List FriendRequest) (clause : FriendRequest → Bool) :
    List FriendRequest :=
  requests.filter clause

/-- Primary key given to the next created friend request. -/
def FriendRequest.nextId (requests : List FriendRequest) : Nat :=
  (requests.map (fun r => r.id)).foldr max 0 + 1

/-- The call `FriendRequest.create({ sender_id, receiver_id, status })`: the created
row and the table with that row appended. -/
def FriendRequest.create (requests : List FriendRequest) (sender_id receiver_id : Nat)
    (status : RequestStatus) : FriendRequest × List FriendRequest :=
  let row : FriendRequest :=
    { id := FriendRequest.nextId requests, sender_id := sender_id,
      receiver_id := receiver_id, status := status }
  (row, requests ++ [row])

/-- The call `friendRequest.save()` after `friendRequest.status = status`: the status
column is written to the row(s) carrying the primary key of the instance. -/
def FriendRequest.save (requests : List FriendRequest) (friendRequest : FriendRequest) :
    List FriendRequest :=
  requests.map (fun r =>
    if r.id = friendRequest.id then { r with status := friendRequest.status } else r)

/-! ## Responses -/

/-- Response of `sendFriendRequest`. -/
inductive SendResponse where
  | selfAdd
  | targetMissing
  | alreadyFriends
  | duplicateRequest
  | created (request : FriendRequest) (senderUser : Option User)
  deriving DecidableEq, Repr

/-- HTTP status of a `sendFriendRequest` response. -/
def SendResponse.code : SendResponse → Nat
  | .selfAdd => 400
  | .targetMissing => 404
  | .alreadyFriends => 400
  | .duplicateRequest => 400
  | .created _ _ => 201

/-- The `message` field of a `sendFriendRequest` response. -/
def SendResponse.message : SendResponse → String
  | .selfAdd => "不能添加自己为好友"
  | .targetMissing => "目标用户不存在"
  | .alreadyFriends => "你们已经是好友了"
  | .duplicateRequest => "好友请求已发送，请等待对方处理"
  | .created _ _ => "好友请求发送成功"

/-- Response of `handleFriendRequest`. -/
inductive HandleResponse where
  | notFound
  | forbidden
  | ok (status : RequestStatus) (request : FriendRequest)
  deriving DecidableEq, Repr

/-- HTTP status of a `handleFriendRequest` response. -/
def HandleResponse.code : HandleResponse → Nat
  | .notFound => 404
  | .forbidden => 403
  | .ok _ _ => 200

/-- The `message` field of a `handleFriendRequest` response. -/
def HandleResponse.message : HandleResponse → String
  | .notFound => "好友请求不存在"
  | .forbidden => "无权限处理该好友请求"
  | .ok status _ => "好友请求已" ++ (if status = .accepted then "接受" else "拒绝")

/-- The attributes id, username, display_name, status returned for a friend. -/
structure UserSummary where
  id : Nat
  username : String
  display_name : String
  status : String
  deriving DecidableEq, Repr

/-- The attributes id, username, display_name included with a listed request. -/
structure UserBrief where
  id : Nat
  username : String
  display_name : String
  deriving DecidableEq, Repr

/-- The included association of a listed request, restricted to its attributes. -/
def UserBrief.ofUser (u : User) : UserBrief :=
  { id := u.id, username := u.username, display_name := u.display_name }

/-! ## Associations -/

/-- Modelled from the spec: the association `friendUser` of a friendship edge, declared
in models/Friend.js, which is not among the sources.  Following the spec, the edge is
joined to the profile of the friend, that is to the user row with key `friend_id`. -/
def Friend.friendUser (users : List User) (f : Friend) : Option User :=
  User.findByPk users f.friend_id

/-- Modelled from the spec: the association `senderUser` of a friend request, declared
in models/FriendRequest.js, which is not among the sources.  Following the spec, it is
the profile of the sender. -/
def FriendRequest.senderUser (users : List User) (r : FriendRequest) : Option User :=
  User.findByPk users r.sender_id

/-- Modelled from the spec: the association `receiverUser` of a friend request, declared
in models/FriendRequest.js, which is not among the sources.  Following the spec, it is
the profile of the receiver. -/
def FriendRequest.receiverUser (users : List User) (r : FriendRequest) : Option User :=
  User.findByPk users r.receiver_id

/-! ## Request bodies -/

/-- The value of `req.body.targetUserId` as the handler receives it: the body is
parsed JSON and the handler does not validate it, so the key of the target may
arrive as a JSON number (`number n`) or as a JSON string holding the decimal
numeral of the key (`text n`). -/
inductive TargetUserId where
  | number (n : Nat)
  | text (n : Nat)
  deriving DecidableEq, Repr

/-- The key a body value denotes once it reaches a query or a written row: the
storage layer converts a numeral string to the integer it spells. -/
def TargetUserId.key : TargetUserId → Nat
  | .number n => n
  | .text n => n

/-- The test `currentUserId === targetUserId`: strict equality of the number
`req.user.id` with the body value, true only for a number of the same value and false
for every string. -/
def strictEq (currentUserId : Nat) (targetUserId : TargetUserId) : Bool :=
  match targetUserId with
  | .number n => decide (currentUserId = n)
  | .text _ => false

/-! ## Handlers -/

/-- The where clause of the friendship lookup in `sendFriendRequest`: an edge
between the two users in either direction (no condition on its status). -/
def friendClause (currentUserId targetUserId : Nat) (f : Friend) : Bool :=
  (decide (f.user_id = currentUserId) && decide (f.friend_id = targetUserId)) ||
  (decide (f.user_id = targetUserId) && decide (f.friend_id = currentUserId))

/-- The where clause of the request lookup in `sendFriendRequest`. -/
def pendingClause (currentUserId targetUserId : Nat) (r : FriendRequest) : Bool :=
  decide (r.sender_id = currentUserId) && decide (r.receiver_id = targetUserId) &&
  decide (r.status = .pending)

/-- The handler `sendFriendRequest`, with `currentUserId = req.user.id` and
`targetUserId = req.body.targetUserId`.  The first test is the strict equality of the
source; every later use of `targetUserId` is a storage call, which sees its key.  The
row in the response is the row as stored. -/
def sendFriendRequest (s : Store) (currentUserId : Nat) (targetUserId : TargetUserId) :
    Store × SendResponse :=
  if strictEq currentUserId targetUserId then (s, .selfAdd)
  else
    match User.findByPk s.users targetUserId.key with
    | none => (s, .targetMissing)
    | some _ =>
      match Friend.findOne s.friends (friendClause currentUserId targetUserId.key) with
      | some _ => (s, .alreadyFriends)
      | none =>
        match FriendRequest.findOne s.requests
            (pendingClause currentUserId targetUserId.key) with
        | some _ => (s, .duplicateRequest)
        | none =>
          let created :=
            FriendRequest.create s.requests currentUserId targetUserId.key .pending
          let sender := User.findByPk s.users currentUserId
          ({ s with requests := created.2 }, .created created.1 sender)

/-- The handler `getFriendRequests`: pending requests received by `userId`, each with
its `senderUser` association (absent when the sender has no user row). -/
def getFriendRequests (s : Store) (userId : Nat) : List (FriendRequest × Option UserBrief) :=
  (FriendRequest.findAll s.requests
      (fun r => decide (r.receiver_id = userId) && decide (r.status = .pending))).map
    (fun r => (r, (FriendRequest.senderUser s.users r).map UserBrief.ofUser))

/-- The handler `getSentFriendRequests`: pending requests sent by `userId`, each with
its `receiverUser` association. -/
def getSentFriendRequests (s : Store) (userId : Nat) : List (FriendRequest × Option UserBrief) :=
  (FriendRequest.findAll s.requests
      (fun r => decide (r.sender_id = userId) && decide (r.status = .pending))).map
    (fun r => (r, (FriendRequest.receiverUser s.users r).map UserBrief.ofUser))

/-- The handler `handleFriendRequest`, with `id = req.params.id`,
`status = req.body.status` and `currentUserId = req.user.id`. -/
def handleFriendRequest (s : Store) (id : Nat) (status : RequestStatus) (currentUserId : Nat) :
    Store × HandleResponse :=
  match FriendRequest.findByPk s.requests id with
  | none => (s, .notFound)
  | some friendRequest =>
    if friendRequest.receiver_id ≠ currentUserId then (s, .forbidden)
    else
      let friendRequest := { friendRequest with status := status }
      let requests := FriendRequest.save s.requests friendRequest
      let friends :=
        if status = .accepted then
          Friend.create
            (Friend.create s.friends friendRequest.sender_id friendRequest.receiver_id .accepted)
            friendRequest.receiver_id friendRequest.sender_id .accepted
        else s.friends
      ({ s with requests := requests, friends := friends }, .ok status friendRequest)

/-- The handler `getFriends`: accepted edges leaving `userId`, inner-joined
(`required: true`) with their `friendUser` association, so that an edge without it is
dropped, and projected to the four attributes of the friend. -/
def getFriends (s : Store) (userId : Nat) : List UserSummary :=
  let friends :=
    (Friend.findAll s.friends
        (fun f => decide (f.user_id = userId) && decide (f.status = .accepted))).filterMap
      (fun f => (Friend.friendUser s.users f).map (fun friendUser => (f, friendUser)))
  friends.map (fun friend =>
    { id := friend.2.id, username := friend.2.username,
      display_name := friend.2.display_name, status := friend.2.status })

/-! ## Sequences of controller operations -/

/-- The two decisions of the resolve operation. -/
inductive Decision where
  | accepted
  | rejected
  deriving DecidableEq, Repr

/-- The status value sent in the body for a decision. -/
def Decision.toStatus : Decision → RequestStatus
  | .accepted => .accepted
  | .rejected => .rejected

/-- One call of a controller operation, with the values the handler receives: a send
call carries the body value `targetUserId`, a resolve call any body value `status`. -/
inductive Op where
  | listUsers (requester : Nat) (search : Option String)
  | sendRequest (sender : Nat) (target : TargetUserId)
  | listIncoming (user : Nat)
  | listOutgoing (user : Nat)
  | resolveRequest (id actingUser : Nat) (status : RequestStatus)
  | listFriends (user : Nat)
  deriving DecidableEq, Repr

/-- The store after one controller operation.  The four listing handlers only read. -/
def step (s : Store) : Op → Store
  | .listUsers _ _ => s
  | .sendRequest sender target => (sendFriendRequest s sender target).1
  | .listIncoming _ => s
  | .listOutgoing _ => s
  | .resolveRequest id actingUser status =>
      (handleFriendRequest s id status actingUser).1
  | .listFriends _ => s

/-- The operation is not a resolve call with body status pending: a resolve call
carries a decision, accepted or rejected. -/
def Op.decided : Op → Prop
  | .resolveRequest _ _ status => status ≠ .pending
  | _ => True

instance (op : Op) : Decidable op.decided := by
  cases op <;> unfold Op.decided <;> infer_instance

/-- The store after a sequence of controller operations, run one after the other. -/
def run (s : Store) (ops : List Op) : Store :=
  ops.foldl step s

/-- A store with the given user rows, no friendship edge and no friend request. -/
def Store.initial (users : List User) : Store :=
  { users := users, friends := [], requests := [] }

/-- The user with primary key `r` is listed among the friends of `u`. -/
def listsFriend (s : Store) (u r : Nat) : Prop :=
  ∃ x ∈ getFriends s u, x.id = r

instance (s : Store) (u r : Nat) : Decidable (listsFriend s u r) := by
  unfold listsFriend
  infer_instance

/-- At most one pending row for every ordered pair (sender, receiver). -/
def PendingUnique (s : Store) : Prop :=
  ∀ a b : Nat, (s.requests.filter (pendingClause a b)).length ≤ 1

/-- Every accepted edge has its accepted reverse edge. -/
def Bidirectional (s : Store) : Prop :=
  ∀ f ∈ s.friends, f.status = .accepted →
    ({ user_id := f.friend_id, friend_id := f.user_id, status := .accepted } : Friend) ∈ s.friends

/-- Some user row has primary key `b`. -/
def UserExists (s : Store) (b : Nat) : Prop :=
  ∃ u ∈ s.users, u.id = b

instance (s : Store) (b : Nat) : Decidable (UserExists s b) := by
  unfold UserExists
  infer_instance

/-- Some friendship edge, accepted or pending, links `a` and `b` in either direction. -/
def EdgeBetween (s : Store) (a b : Nat) : Prop :=
  ∃ f ∈ s.friends, (f.status = .accepted ∨ f.status = .pending) ∧
    ((f.user_id = a ∧ f.friend_id = b) ∨ (f.user_id = b ∧ f.friend_id = a))

instance (s : Store) (a b : Nat) : Decidable (EdgeBetween s a b) := by
  unfold EdgeBetween
  infer_instance

/-- Some pending request goes from `a` to `b`. -/
def PendingFrom (s : Store) (a b : Nat) : Prop :=
  ∃ r ∈ s.requests, r.sender_id = a ∧ r.receiver_id = b ∧ r.status = .pending

instance (s : Store) (a b : Nat) : Decidable (PendingFrom s a b) := by
  unfold PendingFrom
  infer_instance

/-- The accepted edge from `a` to `b`. -/
def acceptedEdge (a b : Nat) : Friend :=
  { user_id := a, friend_id := b, status := .accepted }

/-- The row created by a successful `sendFriendRequest` from `a` to `b`. -/
def newRequest (s : Store) (a b : Nat) : FriendRequest :=
  { id := FriendRequest.nextId s.requests, sender_id := a, receiver_id := b, status := .pending }

/-- The store after a successful `sendFriendRequest` from `a` with body value `t`. -/
def afterSend (s : Store) (a : Nat) (t : TargetUserId) : Store :=
  (sendFriendRequest s a t).1

/-- The store after the target has then rejected the request created by that call. -/
def afterReject (s : Store) (a : Nat) (t : TargetUserId) : Store :=
  (handleFriendRequest (afterSend s a t) (newRequest s a t.key).id .rejected t.key).1

/-! ## Concrete stores used in examples -/

/-- A user row with primary key `n`. -/
def mkUser (n : Nat) : User :=
  { id := n, username := "u", display_name := "U", status := "offline" }

/-- Users 1 and 2, no edge, no request. -/
def twoUsers : Store :=
  Store.initial [mkUser 1, mkUser 2]

/-- User 1 has sent request 1 to user 2. -/
def pendingStore : Store :=
  run twoUsers [.sendRequest 1 (.number 2)]

/-- User 2 has accepted request 1 of user 1. -/
def acceptedStore : Store :=
  run twoUsers [.sendRequest 1 (.number 2), .resolveRequest 1 2 .accepted]

/-- Users 1 and 2 have sent each other a request, and user 1 has accepted request 2
of user 2; request 1, from 1 to 2, is still pending. -/
def crossedStore : Store :=
  run twoUsers
    [.sendRequest 1 (.number 2), .sendRequest 2 (.number 1), .resolveRequest 2 1 .accepted]

/-- User 2 has rejected request 1 of user 1, user 1 has sent request 2 to user 2, and
user 2 has then resolved request 1 once more, with body status pending. -/
def reopenedStore : Store :=
  run twoUsers
    [.sendRequest 1 (.number 2), .resolveRequest 1 2 .rejected, .sendRequest 1 (.number 2),
      .resolveRequest 1 2 .pending]

/-- Users 1 and 2 are friends, and the user row of user 2 has been removed since. -/
def removedFriendStore : Store :=
  { users := [mkUser 1], friends := [acceptedEdge 1 2, acceptedEdge 2 1], requests := [] }

/-- User 1 with an accepted edge to itself. -/
def selfEdgeStore : Store :=
  { users := [mkUser 1], friends := [acceptedEdge 1 1], requests := [] }

/-- Request 1 from user 1 to user 2 is pending, and the user row of the sender has
been removed since. -/
def orphanStore : Store :=
  { users := [mkUser 2], friends := [],
    requests := [{ id := 1, sender_id := 1, receiver_id := 2, status := .pending }] }

/-! ## Lemmas on the ORM calls -/

theorem FriendRequest.findByPk_of_mem {rs : List FriendRequest}
    (h : (rs.map (fun r => r.id)).Nodup) {req : FriendRequest} (hm : req ∈ rs) :
    FriendRequest.findByPk rs req.id = some req := by
  induction rs with
  | nil => cases hm
  | cons x xs ih =>
    simp only [List.map_cons, List.nodup_cons] at h
    unfold FriendRequest.findByPk
    rw [List.find?_cons]
    rcases List.mem_cons.1 hm with rfl | hm'
    · simp
    · have hne : x.id ≠ req.id := fun e => h.1 (e ▸ List.mem_map_of_mem _ hm')
      simp only [hne, decide_False]
      exact ih h.2 hm'

theorem User.findByPk_eq_none {s : Store} {b : Nat} :
    User.findByPk s.users b = none ↔ ¬ UserExists s b := by
  unfold User.findByPk UserExists
  simp [List.find?_eq_none]

theorem User.findByPk_isSome {s : Store} {b : Nat} :
    (User.findByPk s.users b).isSome ↔ UserExists s b := by
  rw [← not_iff_not, ← User.findByPk_eq_none]
  cases User.findByPk s.users b <;> simp

theorem User.findByPk_key {users : List User} {pk : Nat} {u : User}
    (h : User.findByPk users pk = some u) : u.id = pk := by
  have := List.find?_some h
  simpa using this

theorem Friend.findOne_none_iff {s : Store} {a b : Nat} :
    Friend.findOne s.friends (friendClause a b) = none ↔ ¬ EdgeBetween s a b := by
  unfold Friend.findOne EdgeBetween friendClause
  simp only [List.find?_eq_none, Bool.or_eq_true, Bool.and_eq_true, decide_eq_true_eq,
    not_exists, not_and]
  constructor
  · intro h f hf _ hc
    exact h f hf hc
  · intro h f hf hc
    refine h f hf ?_ hc
    cases f.status
    · exact Or.inr rfl
    · exact Or.inl rfl

theorem FriendRequest.findOne_pending_none {s : Store} {a b : Nat} :
    FriendRequest.findOne s.requests (pendingClause a b) = none ↔ ¬ PendingFrom s a b := by
  unfold FriendRequest.findOne PendingFrom pendingClause
  simp [List.find?_eq_none, and_assoc]

/-! ## The five outcomes of `sendFriendRequest` -/

theorem strictEq_of_key_ne {a : Nat} {t : TargetUserId} (h : a ≠ t.key) :
    strictEq a t = false := by
  cases t with
  | number n => simpa [strictEq, TargetUserId.key] using h
  | text n => rfl

theorem send_selfAdd {s : Store} {a : Nat} {t : TargetUserId} (h : strictEq a t = true) :
    sendFriendRequest s a t = (s, .selfAdd) := by
  unfold sendFriendRequest
  rw [if_pos h]

theorem send_targetMissing {s : Store} {a : Nat} {t : TargetUserId}
    (hne : strictEq a t = false) (hu : ¬ UserExists s t.key) :
    sendFriendRequest s a t = (s, .targetMissing) := by
  have hn : ¬ (strictEq a t = true) := by simp [hne]
  unfold sendFriendRequest
  rw [if_neg hn, User.findByPk_eq_none.2 hu]

theorem send_alreadyFriends {s : Store} {a : Nat} {t : TargetUserId}
    (hne : strictEq a t = false) (hu : UserExists s t.key) (he : EdgeBetween s a t.key) :
    sendFriendRequest s a t = (s, .alreadyFriends) := by
  have hn : ¬ (strictEq a t = true) := by simp [hne]
  unfold sendFriendRequest
  obtain ⟨u, hu'⟩ := Option.isSome_iff_exists.1 (User.findByPk_isSome.2 hu)
  obtain ⟨f, hf⟩ := Option.ne_none_iff_exists'.1
    (fun h => (Friend.findOne_none_iff.1 h) he)
  rw [if_neg hn, hu']
  simp only [hf]

theorem send_duplicateRequest {s : Store} {a : Nat} {t : TargetUserId}
    (hne : strictEq a t = false) (hu : UserExists s t.key) (he : ¬ EdgeBetween s a t.key)
    (hp : PendingFrom s a t.key) :
    sendFriendRequest s a t = (s, .duplicateRequest) := by
  have hn : ¬ (strictEq a t = true) := by simp [hne]
  unfold sendFriendRequest
  obtain ⟨u, hu'⟩ := Option.isSome_iff_exists.1 (User.findByPk_isSome.2 hu)
  obtain ⟨r, hr⟩ := Option.ne_none_iff_exists'.1
    (fun h => (FriendRequest.findOne_pending_none.1 h) hp)
  rw [if_neg hn, hu']
  simp only [Friend.findOne_none_iff.2 he, hr]

theorem send_created {s : Store} {a : Nat} {t : TargetUserId}
    (hne : strictEq a t = false) (hu : UserExists s t.key) (he : ¬ EdgeBetween s a t.key)
    (hp : ¬ PendingFrom s a t.key) :
    sendFriendRequest s a t =
      ({ s with requests := s.requests ++ [newRequest s a t.key] },
        .created (newRequest s a t.key) (User.findByPk s.users a)) := by
  have hn : ¬ (strictEq a t = true) := by simp [hne]
  unfold sendFriendRequest
  obtain ⟨u, hu'⟩ := Option.isSome_iff_exists.1 (User.findByPk_isSome.2 hu)
  rw [if_neg hn, hu']
  simp only [Friend.findOne_none_iff.2 he, FriendRequest.findOne_pending_none.2 hp]
  rfl

theorem send_code_iff (s : Store) (a : Nat) (t : TargetUserId) :
    (sendFriendRequest s a t).2.code = 201 ↔
      strictEq a t = false ∧ UserExists s t.key ∧ ¬ EdgeBetween s a t.key ∧
        ¬ PendingFrom s a t.key := by
  cases hne : strictEq a t with
  | true =>
    rw [send_selfAdd hne]
    simp [SendResponse.code]
  | false =>
    by_cases hu : UserExists s t.key
    swap
    · rw [send_targetMissing hne hu]
      simp [SendResponse.code, hu]
    by_cases he : EdgeBetween s a t.key
    · rw [send_alreadyFriends hne hu he]
      simp [SendResponse.code, he]
    by_cases hp : PendingFrom s a t.key
    · rw [send_duplicateRequest hne hu he hp]
      simp [SendResponse.code, hp]
    · rw [send_created hne hu he hp]
      simp [SendResponse.code, hu, he, hp]

/-- The order of the checks of `sendFriendRequest`, with the self-add test as the
source writes it: a body value strictly equal to the sender gives the self-add error;
otherwise a target without user row gives not-found; otherwise an edge between the two
gives already-friends; otherwise a pending request from sender to target gives
duplicate-request; otherwise one row (sender, target, pending) is appended under a
fresh key. -/
theorem send_check_order (s : Store) (a : Nat) (t : TargetUserId) :
    (strictEq a t = true → sendFriendRequest s a t = (s, .selfAdd)) ∧
    (strictEq a t = false → ¬ UserExists s t.key →
      sendFriendRequest s a t = (s, .targetMissing)) ∧
    (strictEq a t = false → UserExists s t.key → EdgeBetween s a t.key →
      sendFriendRequest s a t = (s, .alreadyFriends)) ∧
    (strictEq a t = false → UserExists s t.key → ¬ EdgeBetween s a t.key →
      PendingFrom s a t.key → sendFriendRequest s a t = (s, .duplicateRequest)) ∧
    (strictEq a t = false → UserExists s t.key → ¬ EdgeBetween s a t.key →
      ¬ PendingFrom s a t.key →
      sendFriendRequest s a t =
        ({ users := s.users, friends := s.friends,
           requests := s.requests ++ [newRequest s a t.key] },
          .created (newRequest s a t.key) (User.findByPk s.users a))) :=
  ⟨fun h => send_selfAdd h, fun hne hu => send_targetMissing hne hu,
    fun hne hu he => send_alreadyFriends hne hu he,
    fun hne hu he hp => send_duplicateRequest hne hu he hp,
    fun hne hu he hp => send_created hne hu he hp⟩

theorem FriendRequest.lt_nextId {rs : List FriendRequest} {r : FriendRequest} (h : r ∈ rs) :
    r.id < FriendRequest.nextId rs := by
  unfold FriendRequest.nextId
  induction rs with
  | nil => cases h
  | cons x xs ih =>
    simp only [List.map_cons, List.foldr_cons]
    rcases List.mem_cons.1 h with rfl | h'
    · omega
    · have := ih h'
      omega

/-! ## The three outcomes of `handleFriendRequest` -/

theorem handle_notFound {s : Store} {id : Nat} (status : RequestStatus) (u : Nat)
    (h : FriendRequest.findByPk s.requests id = none) :
    handleFriendRequest s id status u = (s, .notFound) := by
  unfold handleFriendRequest
  rw [h]

theorem handle_forbidden {s : Store} {id : Nat} {req : FriendRequest} (status : RequestStatus)
    {u : Nat} (h : FriendRequest.findByPk s.requests id = some req) (hu : req.receiver_id ≠ u) :
    handleFriendRequest s id status u = (s, .forbidden) := by
  unfold handleFriendRequest
  rw [h]
  simp only [ne_eq, hu, not_false_eq_true, if_true]

theorem handle_ok {s : Store} {id : Nat} {req : FriendRequest} (status : RequestStatus)
    {u : Nat} (h : FriendRequest.findByPk s.requests id = some req) (hu : req.receiver_id = u) :
    handleFriendRequest s id status u =
      ({ users := s.users,
         friends :=
          if status = .accepted then
            s.friends ++ [acceptedEdge req.sender_id req.receiver_id,
              acceptedEdge req.receiver_id req.sender_id]
          else s.friends,
         requests := FriendRequest.save s.requests { req with status := status } },
        .ok status { req with status := status }) := by
  unfold handleFriendRequest
  rw [h]
  simp only [ne_eq, hu, not_true_eq_false, if_false]
  by_cases hs : status = .accepted
  · simp [hs, Friend.create, acceptedEdge]
  · simp [hs]

theorem FriendRequest.save_ids (rs : List FriendRequest) (fr : FriendRequest) :
    (FriendRequest.save rs fr).map (fun r => r.id) = rs.map (fun r => r.id) := by
  unfold FriendRequest.save
  rw [List.map_map]
  apply List.map_congr_left
  intro r _
  by_cases h : r.id = fr.id <;> simp [h]

theorem FriendRequest.save_findByPk {rs : List FriendRequest}
    (h : (rs.map (fun r => r.id)).Nodup) {req : FriendRequest} (hm : req ∈ rs)
    (status : RequestStatus) :
    FriendRequest.findByPk (FriendRequest.save rs { req with status := status }) req.id =
      some { req with status := status } := by
  have hn : ((FriendRequest.save rs { req with status := status }).map (fun r => r.id)).Nodup := by
    rw [FriendRequest.save_ids]
    exact h
  have hmem : ({ req with status := status } : FriendRequest) ∈
      FriendRequest.save rs { req with status := status } := by
    unfold FriendRequest.save
    refine List.mem_map.2 ⟨req, hm, ?_⟩
    simp
  exact FriendRequest.findByPk_of_mem hn hmem

/-! ## Friend lists -/

theorem listsFriend_iff (s : Store) (u r : Nat) :
    listsFriend s u r ↔ acceptedEdge u r ∈ s.friends ∧ UserExists s r := by
  unfold listsFriend getFriends Friend.findAll
  constructor
  · rintro ⟨x, hx, hxr⟩
    obtain ⟨⟨f, fu⟩, hp, rfl⟩ := List.mem_map.1 hx
    obtain ⟨g, hg, hgf⟩ := List.mem_filterMap.1 hp
    obtain ⟨hgm, hgc⟩ := List.mem_filter.1 hg
    simp only [Bool.and_eq_true, decide_eq_true_eq] at hgc
    unfold Friend.friendUser at hgf
    cases hfind : User.findByPk s.users g.friend_id with
    | none => rw [hfind] at hgf; cases hgf
    | some v =>
      rw [hfind] at hgf
      simp only [Option.map_some', Option.some.injEq, Prod.mk.injEq] at hgf
      obtain ⟨rfl, rfl⟩ := hgf
      have hid := User.findByPk_key hfind
      simp only at hxr
      have hgr : g.friend_id = r := by rw [← hid, hxr]
      have hge : g = acceptedEdge u r := by
        cases g
        simp only [acceptedEdge, Friend.mk.injEq]
        exact ⟨hgc.1, hgr, hgc.2⟩
      refine ⟨hge ▸ hgm, ?_⟩
      exact ⟨v, List.mem_of_find?_eq_some hfind, hid.trans hgr⟩
  · rintro ⟨he, hu⟩
    obtain ⟨v, hv⟩ := Option.isSome_iff_exists.1 (User.findByPk_isSome.2 hu)
    refine ⟨_, List.mem_map.2 ⟨(acceptedEdge u r, v), ?_, rfl⟩, User.findByPk_key hv⟩
    refine List.mem_filterMap.2 ⟨acceptedEdge u r, List.mem_filter.2 ⟨he, ?_⟩, ?_⟩
    · simp [acceptedEdge]
    · simp only [acceptedEdge, Friend.friendUser]
      rw [hv]
      rfl

theorem FriendRequest.save_pending_key {rs : List FriendRequest} {fr r : FriendRequest}
    (hfr : fr.status ≠ .pending) (hr : r ∈ FriendRequest.save rs fr)
    (hp : r.status = .pending) : r.id ≠ fr.id := by
  unfold FriendRequest.save at hr
  obtain ⟨r0, _, h0⟩ := List.mem_map.1 hr
  by_cases hid : r0.id = fr.id
  · rw [if_pos hid] at h0
    subst h0
    exact absurd hp hfr
  · rw [if_neg hid] at h0
    subst h0
    exact hid

/-! ## Claims on `handleFriendRequest` -/

/-- C7: only the receiver may resolve a request.  In a store whose request keys are
distinct, for every existing request, every acting user other than its receiver and
every status sent as decision, `handleFriendRequest` answers forbidden (403) and
returns the store as it was: the request keeps its status and no edge is created. -/
theorem handleFriendRequest_only_receiver (s : Store) (hpk : s.PrimaryKey)
    (req : FriendRequest) (hmem : req ∈ s.requests) (u : Nat) (hu : u ≠ req.receiver_id)
    (status : RequestStatus) :
    (handleFriendRequest s req.id status u).2 = .forbidden ∧
    (handleFriendRequest s req.id status u).2.code = 403 ∧
    (handleFriendRequest s req.id status u).1 = s ∧
    FriendRequest.findByPk (handleFriendRequest s req.id status u).1.requests req.id = some req ∧
    (handleFriendRequest s req.id status u).1.friends = s.friends := by
  have hf := FriendRequest.findByPk_of_mem hpk hmem
  rw [handle_forbidden status hf (Ne.symm hu)]
  exact ⟨rfl, rfl, rfl, hf, rfl⟩

theorem handleFriendRequest_only_receiver_witness :
    pendingStore.PrimaryKey ∧
    (handleFriendRequest pendingStore 1 .accepted 1).2 = .forbidden ∧
    (handleFriendRequest pendingStore 1 .accepted 1).1 = pendingStore :=
  have h := handleFriendRequest_only_receiver pendingStore (by decide)
    { id := 1, sender_id := 1, receiver_id := 2, status := .pending } (by decide) 1 (by decide)
    .accepted
  ⟨by decide, h.1, h.2.2.1⟩

/-- C1, as the code has it: `handleFriendRequest` never reads the current status of the
request.  In a store whose request keys are distinct, for every existing request (in
particular one already accepted or rejected) and every decision: an acting user other
than the receiver gets forbidden and the store is unchanged; the receiver sets the
status to the decision given, and the friend table grows by the two edges
(sender, receiver) and (receiver, sender) when the decision is accepted and stays as it
was when the decision is rejected. -/
theorem handleFriendRequest_ignores_current_status (s : Store) (hpk : s.PrimaryKey)
    (req : FriendRequest) (hmem : req ∈ s.requests) (u : Nat) (d : Decision) :
    (u ≠ req.receiver_id → handleFriendRequest s req.id d.toStatus u = (s, .forbidden)) ∧
    (u = req.receiver_id →
      FriendRequest.findByPk (handleFriendRequest s req.id d.toStatus u).1.requests req.id =
        some { req with status := d.toStatus } ∧
      (handleFriendRequest s req.id d.toStatus u).1.friends =
        s.friends ++
          (if d = .accepted then
            [acceptedEdge req.sender_id req.receiver_id,
              acceptedEdge req.receiver_id req.sender_id]
          else [])) := by
  have hf := FriendRequest.findByPk_of_mem hpk hmem
  refine ⟨fun hu => handle_forbidden _ hf (Ne.symm hu), fun hu => ?_⟩
  rw [handle_ok d.toStatus hf hu.symm]
  refine ⟨FriendRequest.save_findByPk hpk hmem _, ?_⟩
  cases d <;> simp [Decision.toStatus]

theorem handleFriendRequest_ignores_current_status_witness :
    acceptedStore.PrimaryKey ∧
    FriendRequest.findByPk
        (handleFriendRequest acceptedStore 1 Decision.rejected.toStatus 2).1.requests 1 =
      some { id := 1, sender_id := 1, receiver_id := 2, status := .rejected } :=
  ⟨by decide,
    ((handleFriendRequest_ignores_current_status acceptedStore (by decide)
      { id := 1, sender_id := 1, receiver_id := 2, status := .accepted } (by decide) 2
      .rejected).2 rfl).1⟩

/-- C1 fails as stated: request 1 of `acceptedStore` is accepted; its receiver, user 2,
turns it into rejected by resolving it again, and resolving it as accepted once more
appends a second pair of edges. -/
theorem resolved_request_not_terminal :
    FriendRequest.findByPk acceptedStore.requests 1 =
      some { id := 1, sender_id := 1, receiver_id := 2, status := .accepted } ∧
    FriendRequest.findByPk
        (handleFriendRequest acceptedStore 1 Decision.rejected.toStatus 2).1.requests 1 =
      some { id := 1, sender_id := 1, receiver_id := 2, status := .rejected } ∧
    acceptedStore.friends = [acceptedEdge 1 2, acceptedEdge 2 1] ∧
    (handleFriendRequest acceptedStore 1 Decision.accepted.toStatus 2).1.friends =
      [acceptedEdge 1 2, acceptedEdge 2 1, acceptedEdge 1 2, acceptedEdge 2 1] := by
  decide

/-- C2, with the proviso the inner join needs: in a store whose request keys are
distinct, for every existing request from sender s to receiver r (pending or not) such
that both s and r have a user row, `handleFriendRequest` called by r with accepted
succeeds (200), and afterwards `getFriends` of s lists user r and `getFriends` of r
lists user s. -/
theorem handleFriendRequest_accept_lists_both (s : Store) (hpk : s.PrimaryKey)
    (req : FriendRequest) (hmem : req ∈ s.requests)
    (hs : UserExists s req.sender_id) (hr : UserExists s req.receiver_id) :
    (handleFriendRequest s req.id .accepted req.receiver_id).2 =
      .ok .accepted { req with status := .accepted } ∧
    (handleFriendRequest s req.id .accepted req.receiver_id).2.code = 200 ∧
    listsFriend (handleFriendRequest s req.id .accepted req.receiver_id).1
      req.sender_id req.receiver_id ∧
    listsFriend (handleFriendRequest s req.id .accepted req.receiver_id).1
      req.receiver_id req.sender_id := by
  have hf := FriendRequest.findByPk_of_mem hpk hmem
  rw [handle_ok .accepted hf rfl]
  refine ⟨rfl, rfl, ?_, ?_⟩
  · rw [listsFriend_iff]
    exact ⟨by simp, hr⟩
  · rw [listsFriend_iff]
    exact ⟨by simp, hs⟩

theorem handleFriendRequest_accept_lists_both_witness :
    pendingStore.PrimaryKey ∧ UserExists pendingStore 1 ∧ UserExists pendingStore 2 ∧
    listsFriend (handleFriendRequest pendingStore 1 .accepted 2).1 1 2 ∧
    listsFriend (handleFriendRequest pendingStore 1 .accepted 2).1 2 1 :=
  have h := handleFriendRequest_accept_lists_both pendingStore (by decide)
    { id := 1, sender_id := 1, receiver_id := 2, status := .pending } (by decide)
    (by decide) (by decide)
  ⟨by decide, by decide, by decide, h.2.2.1, h.2.2.2⟩

/-- C2 fails as stated: in `orphanStore` request 1 from user 1 to user 2 is pending and
user 2 accepts it with success, yet `getFriends` of user 2 does not list user 1, whose
user row is gone: the join with the user table drops the edge. -/
theorem accept_of_removed_sender_not_listed :
    orphanStore.PrimaryKey ∧
    FriendRequest.findByPk orphanStore.requests 1 =
      some { id := 1, sender_id := 1, receiver_id := 2, status := .pending } ∧
    (handleFriendRequest orphanStore 1 .accepted 2).2 =
      .ok .accepted { id := 1, sender_id := 1, receiver_id := 2, status := .accepted } ∧
    (handleFriendRequest orphanStore 1 .accepted 2).1.friends =
      [acceptedEdge 1 2, acceptedEdge 2 1] ∧
    getFriends (handleFriendRequest orphanStore 1 .accepted 2).1 2 = [] ∧
    ¬ listsFriend (handleFriendRequest orphanStore 1 .accepted 2).1 2 1 := by
  decide

/-- C3, as the code has it: a rejection leaves the friend table alone.  In a store whose
request keys are distinct, for every existing request from sender s to receiver r,
`handleFriendRequest` called by r with rejected succeeds (200); the friend table and
the user table are unchanged, so every friend list is what it was before the call (s
and r list each other afterwards exactly when they did before); and the request is in
neither `getFriendRequests` of r nor `getSentFriendRequests` of s. -/
theorem handleFriendRequest_reject (s : Store) (hpk : s.PrimaryKey)
    (req : FriendRequest) (hmem : req ∈ s.requests) :
    (handleFriendRequest s req.id .rejected req.receiver_id).2 =
      .ok .rejected { req with status := .rejected } ∧
    (handleFriendRequest s req.id .rejected req.receiver_id).1.friends = s.friends ∧
    (∀ x : Nat, getFriends (handleFriendRequest s req.id .rejected req.receiver_id).1 x =
      getFriends s x) ∧
    (∀ x y : Nat, listsFriend (handleFriendRequest s req.id .rejected req.receiver_id).1 x y ↔
      listsFriend s x y) ∧
    (∀ p ∈ getFriendRequests (handleFriendRequest s req.id .rejected req.receiver_id).1
      req.receiver_id, p.1.id ≠ req.id) ∧
    (∀ p ∈ getSentFriendRequests (handleFriendRequest s req.id .rejected req.receiver_id).1
      req.sender_id, p.1.id ≠ req.id) := by
  have hf := FriendRequest.findByPk_of_mem hpk hmem
  rw [handle_ok .rejected hf rfl]
  have hrej : ({ req with status := .rejected } : FriendRequest).status ≠ .pending := by
    simp
  refine ⟨rfl, by simp, fun x => by simp [getFriends], fun x y => ?_, ?_, ?_⟩
  · simp [listsFriend_iff, UserExists]
  · intro p hp
    unfold getFriendRequests FriendRequest.findAll at hp
    obtain ⟨r, hr, rfl⟩ := List.mem_map.1 hp
    obtain ⟨hrm, hrc⟩ := List.mem_filter.1 hr
    simp only [Bool.and_eq_true, decide_eq_true_eq] at hrc
    have hkey := FriendRequest.save_pending_key hrej hrm hrc.2
    exact hkey
  · intro p hp
    unfold getSentFriendRequests FriendRequest.findAll at hp
    obtain ⟨r, hr, rfl⟩ := List.mem_map.1 hp
    obtain ⟨hrm, hrc⟩ := List.mem_filter.1 hr
    simp only [Bool.and_eq_true, decide_eq_true_eq] at hrc
    have hkey := FriendRequest.save_pending_key hrej hrm hrc.2
    exact hkey

theorem handleFriendRequest_reject_witness :
    pendingStore.PrimaryKey ∧
    (handleFriendRequest pendingStore 1 .rejected 2).1.friends = pendingStore.friends ∧
    getFriends (handleFriendRequest pendingStore 1 .rejected 2).1 1 = getFriends pendingStore 1 :=
  have h := handleFriendRequest_reject pendingStore (by decide)
    { id := 1, sender_id := 1, receiver_id := 2, status := .pending } (by decide)
  ⟨by decide, h.2.1, h.2.2.1 1⟩

/-- C3 fails as stated: in `crossedStore` users 1 and 2 are friends through request 2,
and request 1 from user 1 to user 2 is still pending; after user 2 rejects request 1,
`getFriends` of 1 still lists 2 and `getFriends` of 2 still lists 1. -/
theorem reject_keeps_existing_friendship :
    crossedStore.PrimaryKey ∧
    FriendRequest.findByPk crossedStore.requests 1 =
      some { id := 1, sender_id := 1, receiver_id := 2, status := .pending } ∧
    (handleFriendRequest crossedStore 1 .rejected 2).2 =
      .ok .rejected { id := 1, sender_id := 1, receiver_id := 2, status := .rejected } ∧
    listsFriend (handleFriendRequest crossedStore 1 .rejected 2).1 1 2 ∧
    listsFriend (handleFriendRequest crossedStore 1 .rejected 2).1 2 1 := by
  decide

/-! ## What one operation changes -/

theorem send_users (s : Store) (a : Nat) (t : TargetUserId) :
    (sendFriendRequest s a t).1.users = s.users := by
  unfold sendFriendRequest
  repeat' split
  all_goals rfl

theorem send_friends (s : Store) (a : Nat) (t : TargetUserId) :
    (sendFriendRequest s a t).1.friends = s.friends := by
  unfold sendFriendRequest
  repeat' split
  all_goals rfl

theorem send_requests (s : Store) (a : Nat) (t : TargetUserId) :
    (sendFriendRequest s a t).1.requests = s.requests ∨
    (¬ PendingFrom s a t.key ∧
      (sendFriendRequest s a t).1.requests = s.requests ++ [newRequest s a t.key]) := by
  by_cases h : (sendFriendRequest s a t).2.code = 201
  · obtain ⟨hne, hu, he, hp⟩ := (send_code_iff s a t).1 h
    rw [send_created hne hu he hp]
    exact Or.inr ⟨hp, rfl⟩
  · left
    cases hne : strictEq a t with
    | true => rw [send_selfAdd hne]
    | false =>
      by_cases hu : UserExists s t.key
      swap
      · rw [send_targetMissing hne hu]
      by_cases he : EdgeBetween s a t.key
      · rw [send_alreadyFriends hne hu he]
      by_cases hp : PendingFrom s a t.key
      · rw [send_duplicateRequest hne hu he hp]
      · exact absurd ((send_code_iff s a t).2 ⟨hne, hu, he, hp⟩) h

theorem handle_users (s : Store) (id : Nat) (status : RequestStatus) (u : Nat) :
    (handleFriendRequest s id status u).1.users = s.users := by
  unfold handleFriendRequest
  repeat' split
  all_goals rfl

theorem handle_friends (s : Store) (id : Nat) (status : RequestStatus) (u : Nat) :
    (handleFriendRequest s id status u).1.friends = s.friends ∨
    ∃ x y : Nat, (handleFriendRequest s id status u).1.friends =
      s.friends ++ [acceptedEdge x y, acceptedEdge y x] := by
  cases hf : FriendRequest.findByPk s.requests id with
  | none => rw [handle_notFound status u hf]; exact Or.inl rfl
  | some req =>
    by_cases hu : req.receiver_id = u
    · rw [handle_ok status hf hu]
      by_cases hs : status = .accepted
      · exact Or.inr ⟨req.sender_id, req.receiver_id, by simp [hs]⟩
      · exact Or.inl (by simp [hs])
    · rw [handle_forbidden status hf hu]
      exact Or.inl rfl

theorem handle_requests (s : Store) (id : Nat) (status : RequestStatus) (u : Nat) :
    (handleFriendRequest s id status u).1.requests = s.requests ∨
    ∃ req : FriendRequest, (handleFriendRequest s id status u).1.requests =
      FriendRequest.save s.requests { req with status := status } := by
  cases hf : FriendRequest.findByPk s.requests id with
  | none => rw [handle_notFound status u hf]; exact Or.inl rfl
  | some req =>
    by_cases hu : req.receiver_id = u
    · rw [handle_ok status hf hu]
      exact Or.inr ⟨req, rfl⟩
    · rw [handle_forbidden status hf hu]
      exact Or.inl rfl

theorem step_users (s : Store) (op : Op) : (step s op).users = s.users := by
  cases op with
  | sendRequest a b => exact send_users s a b
  | resolveRequest id u status => exact handle_users s id status u
  | _ => rfl

theorem run_induction_of (P : Store → Prop) (Q : Op → Prop)
    (hstep : ∀ s op, Q op → P s → P (step s op))
    (s : Store) (h : P s) (ops : List Op) (hq : ∀ op ∈ ops, Q op) : P (run s ops) := by
  unfold run
  induction ops generalizing s with
  | nil => exact h
  | cons op ops ih =>
    exact ih (step s op) (hstep s op (hq op (List.mem_cons_self _ _)) h)
      (fun o ho => hq o (List.mem_cons_of_mem _ ho))

theorem run_induction (P : Store → Prop) (hstep : ∀ s op, P s → P (step s op))
    (s : Store) (h : P s) (ops : List Op) : P (run s ops) :=
  run_induction_of P (fun _ => True) (fun t op _ ht => hstep t op ht) s h ops
    (fun _ _ => trivial)

theorem run_users (s : Store) (ops : List Op) : (run s ops).users = s.users :=
  run_induction (fun t => t.users = s.users) (fun t op h => (step_users t op).trans h) s rfl ops

theorem step_primaryKey (s : Store) (op : Op) (h : s.PrimaryKey) : (step s op).PrimaryKey := by
  unfold Store.PrimaryKey at *
  cases op with
  | sendRequest a b =>
    rcases send_requests s a b with hr | ⟨_, hr⟩
    · simp only [step]; rw [hr]; exact h
    · simp only [step]
      rw [hr, List.map_append, List.nodup_append]
      refine ⟨h, List.nodup_singleton _, ?_⟩
      intro x hx hx'
      obtain ⟨r, hr', rfl⟩ := List.mem_map.1 hx
      simp only [List.map_cons, List.map_nil, List.mem_singleton] at hx'
      exact absurd hx' (Nat.ne_of_lt (FriendRequest.lt_nextId hr'))
  | resolveRequest id u status =>
    rcases handle_requests s id status u with hr | ⟨req, hr⟩
    · simp only [step]; rw [hr]; exact h
    · simp only [step]
      rw [hr, FriendRequest.save_ids]
      exact h
  | _ => exact h

theorem step_pendingUnique (s : Store) (op : Op) (hd : op.decided) (h : PendingUnique s) :
    PendingUnique (step s op) := by
  cases op with
  | sendRequest a b =>
    rcases send_requests s a b with hr | ⟨hp, hr⟩
    · intro x y; simp only [step]; rw [hr]; exact h x y
    · intro x y
      simp only [step]
      rw [hr, List.filter_append, List.length_append]
      by_cases hc : pendingClause x y (newRequest s a b.key) = true
      · have hxy : a = x ∧ b.key = y := by
          simp only [pendingClause, newRequest, Bool.and_eq_true, decide_eq_true_eq] at hc
          exact ⟨hc.1.1, hc.1.2⟩
        obtain ⟨rfl, rfl⟩ := hxy
        have hnil : s.requests.filter (pendingClause a b.key) = [] := by
          rw [List.filter_eq_nil_iff]
          intro r hr' hcr
          simp only [pendingClause, Bool.and_eq_true, decide_eq_true_eq] at hcr
          exact hp ⟨r, hr', hcr.1.1, hcr.1.2, hcr.2⟩
        rw [hnil]
        simp [hc]
      · have hnil : [newRequest s a b.key].filter (pendingClause x y) = [] := by
          simp [hc]
        rw [hnil]
        exact h x y
  | resolveRequest id u status =>
    have hst : status ≠ .pending := hd
    rcases handle_requests s id status u with hr | ⟨req, hr⟩
    · intro x y; simp only [step]; rw [hr]; exact h x y
    · intro x y
      simp only [step]
      rw [hr]
      refine le_trans ?_ (h x y)
      unfold FriendRequest.save
      rw [← List.countP_eq_length_filter, ← List.countP_eq_length_filter, List.countP_map]
      apply List.countP_mono_left
      intro r _ hr'
      by_cases hid : r.id = req.id
      · simp only [Function.comp, hid, if_true, pendingClause, Bool.and_eq_true,
          decide_eq_true_eq] at hr'
        exact absurd hr'.2 hst
      · simpa only [Function.comp, hid, if_false] using hr'
  | _ => exact h

theorem step_bidirectional (s : Store) (op : Op) (h : Bidirectional s) :
    Bidirectional (step s op) := by
  cases op with
  | sendRequest a b =>
    intro f hf hacc
    simp only [step] at hf ⊢
    rw [send_friends] at hf ⊢
    exact h f hf hacc
  | resolveRequest id u status =>
    rcases handle_friends s id status u with hr | ⟨x, y, hr⟩
    · intro f hf hacc
      simp only [step] at hf ⊢
      rw [hr] at hf ⊢
      exact h f hf hacc
    · intro f hf hacc
      simp only [step] at hf ⊢
      rw [hr] at hf ⊢
      rcases List.mem_append.1 hf with hf' | hf'
      · exact List.mem_append_left _ (h f hf' hacc)
      · apply List.mem_append_right
        simp only [List.mem_cons, List.mem_singleton, List.not_mem_nil, or_false] at hf'
        rcases hf' with rfl | rfl
        · simp [acceptedEdge]
        · simp [acceptedEdge]
  | _ => exact h

/-! ## Claims on `sendFriendRequest` -/

/-- C4 at a failing input: user 1 sends a request whose body holds its own key as the
string "1".  The strict test `currentUserId === targetUserId` is false, user 1 is found,
no edge and no pending request exist, and the handler answers 201 and stores the
request (1, 1, pending), where the claim (and the comment above the test) has the
self-add error.  With the key as a number the same call is refused. -/
theorem sendFriendRequest_self_by_string :
    strictEq 1 (.text 1) = false ∧
    sendFriendRequest twoUsers 1 (.text 1) =
      ({ users := twoUsers.users, friends := [],
         requests := [{ id := 1, sender_id := 1, receiver_id := 1, status := .pending }] },
        .created { id := 1, sender_id := 1, receiver_id := 1, status := .pending }
          (some (mkUser 1))) ∧
    (sendFriendRequest twoUsers 1 (.text 1)).2.code = 201 ∧
    sendFriendRequest twoUsers 1 (.number 1) = (twoUsers, .selfAdd) := by
  decide

/-- C5, with the two earlier checks passed: for every store and all a ≠ b that both have
a user row, if the accepted edge (a, b) exists then `sendFriendRequest` from a to b and
from b to a (the key of the target sent as a number or as a string) both answer
already-friends (400) and return the store as it was, so no request is created. -/
theorem sendFriendRequest_between_friends (s : Store) (a b : Nat) (hab : a ≠ b)
    (ha : UserExists s a) (hb : UserExists s b) (he : acceptedEdge a b ∈ s.friends) :
    (∀ t : TargetUserId, t.key = b → sendFriendRequest s a t = (s, .alreadyFriends)) ∧
    (∀ t : TargetUserId, t.key = a → sendFriendRequest s b t = (s, .alreadyFriends)) ∧
    SendResponse.alreadyFriends.code = 400 := by
  refine ⟨?_, ?_, rfl⟩
  · rintro t rfl
    exact send_alreadyFriends (strictEq_of_key_ne hab) hb
      ⟨_, he, Or.inl rfl, Or.inl ⟨rfl, rfl⟩⟩
  · rintro t rfl
    exact send_alreadyFriends (strictEq_of_key_ne (Ne.symm hab)) ha
      ⟨_, he, Or.inl rfl, Or.inr ⟨rfl, rfl⟩⟩

theorem sendFriendRequest_between_friends_witness :
    acceptedEdge 1 2 ∈ acceptedStore.friends ∧
    sendFriendRequest acceptedStore 1 (.number 2) = (acceptedStore, .alreadyFriends) ∧
    sendFriendRequest acceptedStore 2 (.number 1) = (acceptedStore, .alreadyFriends) :=
  have h := sendFriendRequest_between_friends acceptedStore 1 2 (by decide) (by decide)
    (by decide) (by decide)
  ⟨by decide, h.1 (.number 2) rfl, h.2.1 (.number 1) rfl⟩

/-- C5 fails as stated, because two checks come before the friendship lookup: in
`removedFriendStore` the accepted edge (1, 2) exists and a request from 1 to 2 is
answered not-found (404), user 2 having no user row; in `selfEdgeStore` the accepted
edge (1, 1) exists and a request from 1 to 1 is answered with the self-add error. -/
theorem friends_not_always_conflict :
    acceptedEdge 1 2 ∈ removedFriendStore.friends ∧
    sendFriendRequest removedFriendStore 1 (.number 2) =
      (removedFriendStore, .targetMissing) ∧
    acceptedEdge 1 1 ∈ selfEdgeStore.friends ∧
    sendFriendRequest selfEdgeStore 1 (.number 1) = (selfEdgeStore, .selfAdd) := by
  decide

/-- C6, as the code has it: the friendship lookup comes before the duplicate lookup.  If
`sendFriendRequest` from a with body value t succeeds, the same call issued again right
away answers duplicate-request; issued after any sequence of controller operations
that leaves the created request pending in the table, it still fails with 400 and
returns the store as it was (no request is added), answering duplicate-request when no
friendship edge links a and the target at that time and already-friends when one
does. -/
theorem second_sendFriendRequest_fails (s : Store) (a : Nat) (t : TargetUserId)
    (hok : (sendFriendRequest s a t).2.code = 201) (ops : List Op)
    (hpend : newRequest s a t.key ∈ (run (afterSend s a t) ops).requests) :
    sendFriendRequest (afterSend s a t) a t = (afterSend s a t, .duplicateRequest) ∧
    (sendFriendRequest (run (afterSend s a t) ops) a t).1 = run (afterSend s a t) ops ∧
    (sendFriendRequest (run (afterSend s a t) ops) a t).2.code = 400 ∧
    (¬ EdgeBetween (run (afterSend s a t) ops) a t.key →
      (sendFriendRequest (run (afterSend s a t) ops) a t).2 = .duplicateRequest) ∧
    (EdgeBetween (run (afterSend s a t) ops) a t.key →
      (sendFriendRequest (run (afterSend s a t) ops) a t).2 = .alreadyFriends) := by
  obtain ⟨hne, hu, he, hp⟩ := (send_code_iff s a t).1 hok
  have hu1 : UserExists (afterSend s a t) t.key := by
    unfold UserExists afterSend
    rw [send_users]
    exact hu
  have he1 : ¬ EdgeBetween (afterSend s a t) a t.key := by
    unfold EdgeBetween afterSend
    rw [send_friends]
    exact he
  have hp1 : PendingFrom (afterSend s a t) a t.key := by
    refine ⟨newRequest s a t.key, ?_, rfl, rfl, rfl⟩
    unfold afterSend
    rw [send_created hne hu he hp]
    simp
  have hu2 : UserExists (run (afterSend s a t) ops) t.key := by
    unfold UserExists
    rw [run_users]
    exact hu1
  have hp2 : PendingFrom (run (afterSend s a t) ops) a t.key :=
    ⟨newRequest s a t.key, hpend, rfl, rfl, rfl⟩
  refine ⟨send_duplicateRequest hne hu1 he1 hp1, ?_, ?_, ?_, ?_⟩
  · by_cases he2 : EdgeBetween (run (afterSend s a t) ops) a t.key
    · rw [send_alreadyFriends hne hu2 he2]
    · rw [send_duplicateRequest hne hu2 he2 hp2]
  · by_cases he2 : EdgeBetween (run (afterSend s a t) ops) a t.key
    · rw [send_alreadyFriends hne hu2 he2]; rfl
    · rw [send_duplicateRequest hne hu2 he2 hp2]; rfl
  · intro he2
    rw [send_duplicateRequest hne hu2 he2 hp2]
  · intro he2
    rw [send_alreadyFriends hne hu2 he2]

theorem second_sendFriendRequest_fails_witness :
    (sendFriendRequest twoUsers 1 (.number 2)).2.code = 201 ∧
    newRequest twoUsers 1 2 ∈
      (run (afterSend twoUsers 1 (.number 2)) [.sendRequest 2 (.number 1)]).requests ∧
    (sendFriendRequest
        (run (afterSend twoUsers 1 (.number 2)) [.sendRequest 2 (.number 1)]) 1
        (.number 2)).2 = .duplicateRequest :=
  have h := second_sendFriendRequest_fails twoUsers 1 (.number 2) (by decide)
    [.sendRequest 2 (.number 1)] (by decide)
  ⟨by decide, by decide, h.2.2.2.1 (by decide)⟩

/-- C6 fails as stated: user 1 sends a request to user 2 with success; user 2 sends one
to user 1, which user 1 accepts; request 1 is still pending, and a second request from
1 to 2 is answered already-friends, not duplicate-request. -/
theorem second_send_masked_by_friendship :
    (sendFriendRequest twoUsers 1 (.number 2)).2.code = 201 ∧
    run (afterSend twoUsers 1 (.number 2))
        [.sendRequest 2 (.number 1), .resolveRequest 2 1 .accepted] =
      crossedStore ∧
    FriendRequest.findByPk crossedStore.requests 1 =
      some { id := 1, sender_id := 1, receiver_id := 2, status := .pending } ∧
    sendFriendRequest crossedStore 1 (.number 2) = (crossedStore, .alreadyFriends) ∧
    SendResponse.alreadyFriends ≠ SendResponse.duplicateRequest := by
  decide

/-- C10: a rejected request does not block a retry.  For every store, every sender a and
every body value t whose key b differs from a, where b has a user row and no friendship
edge links a and b: if `sendFriendRequest` from a to b succeeds and b then rejects the
created request (which succeeds), a new `sendFriendRequest` from a to b succeeds (201)
and appends one fresh pending row (a, b, pending), whose key differs from that of the
rejected request. -/
theorem sendFriendRequest_after_rejection (s : Store) (a : Nat) (t : TargetUserId)
    (hab : a ≠ t.key) (hb : UserExists s t.key) (he : ¬ EdgeBetween s a t.key)
    (hok : (sendFriendRequest s a t).2.code = 201) :
    (handleFriendRequest (afterSend s a t) (newRequest s a t.key).id .rejected t.key).2 =
      .ok .rejected { newRequest s a t.key with status := .rejected } ∧
    (sendFriendRequest (afterReject s a t) a t).2.code = 201 ∧
    (sendFriendRequest (afterReject s a t) a t).2 =
      .created (newRequest (afterReject s a t) a t.key) (User.findByPk s.users a) ∧
    (sendFriendRequest (afterReject s a t) a t).1.requests =
      (afterReject s a t).requests ++ [newRequest (afterReject s a t) a t.key] ∧
    (newRequest (afterReject s a t) a t.key).sender_id = a ∧
    (newRequest (afterReject s a t) a t.key).receiver_id = t.key ∧
    (newRequest (afterReject s a t) a t.key).status = .pending ∧
    (newRequest (afterReject s a t) a t.key).id ≠ (newRequest s a t.key).id := by
  have hne : strictEq a t = false := strictEq_of_key_ne hab
  have hp : ¬ PendingFrom s a t.key := by
    intro hp
    rw [send_duplicateRequest hne hb he hp] at hok
    simp [SendResponse.code] at hok
  have hs1 : afterSend s a t =
      { users := s.users, friends := s.friends,
        requests := s.requests ++ [newRequest s a t.key] } := by
    unfold afterSend
    rw [send_created hne hb he hp]
  have hfind : FriendRequest.findByPk (afterSend s a t).requests (newRequest s a t.key).id =
      some (newRequest s a t.key) := by
    rw [hs1]
    unfold FriendRequest.findByPk
    rw [List.find?_append]
    have hnone :
        s.requests.find? (fun r => decide (r.id = (newRequest s a t.key).id)) = none := by
      rw [List.find?_eq_none]
      intro r hr
      simpa using Nat.ne_of_lt (FriendRequest.lt_nextId hr)
    rw [hnone]
    simp
  have hhandle := handle_ok (s := afterSend s a t) .rejected hfind
    (show (newRequest s a t.key).receiver_id = t.key from rfl)
  have hs2 : afterReject s a t =
      { users := s.users, friends := s.friends,
        requests := FriendRequest.save (s.requests ++ [newRequest s a t.key])
          { newRequest s a t.key with status := .rejected } } := by
    unfold afterReject
    rw [hhandle, hs1]
    simp
  have hb2 : UserExists (afterReject s a t) t.key := by
    rw [hs2]; exact hb
  have he2 : ¬ EdgeBetween (afterReject s a t) a t.key := by
    rw [hs2]; exact he
  have hmemrej : ({ newRequest s a t.key with status := .rejected } : FriendRequest) ∈
      (afterReject s a t).requests := by
    rw [hs2]
    unfold FriendRequest.save
    refine List.mem_map.2 ⟨newRequest s a t.key, by simp, by simp⟩
  have hp2 : ¬ PendingFrom (afterReject s a t) a t.key := by
    rintro ⟨r, hr, hra, hrb, hrp⟩
    rw [hs2] at hr
    have hrej : ({ newRequest s a t.key with status := .rejected } : FriendRequest).status ≠
        .pending := by simp
    have hkey := FriendRequest.save_pending_key hrej hr hrp
    unfold FriendRequest.save at hr
    obtain ⟨r0, hr0, h0⟩ := List.mem_map.1 hr
    by_cases hid : r0.id = (newRequest s a t.key).id
    · rw [if_pos hid] at h0
      subst h0
      exact hkey hid
    · rw [if_neg hid] at h0
      subst h0
      rcases List.mem_append.1 hr0 with hin | hin
      · exact hp ⟨r0, hin, hra, hrb, hrp⟩
      · simp only [List.mem_singleton] at hin
        exact hid (by rw [hin])
  have hsend := send_created hne hb2 he2 hp2
  refine ⟨?_, ?_, ?_, ?_, rfl, rfl, rfl, ?_⟩
  · rw [hhandle]
  · exact (send_code_iff _ a t).2 ⟨hne, hb2, he2, hp2⟩
  · rw [hsend]
    have husers : (afterReject s a t).users = s.users := by rw [hs2]
    rw [husers]
  · rw [hsend]
  · have hlt := FriendRequest.lt_nextId hmemrej
    exact Ne.symm (Nat.ne_of_lt hlt)

theorem sendFriendRequest_after_rejection_witness :
    (sendFriendRequest twoUsers 1 (.number 2)).2.code = 201 ∧
    (sendFriendRequest (afterReject twoUsers 1 (.number 2)) 1 (.number 2)).2.code = 201 ∧
    (sendFriendRequest (afterReject twoUsers 1 (.number 2)) 1 (.number 2)).1.requests =
      (afterReject twoUsers 1 (.number 2)).requests ++
        [newRequest (afterReject twoUsers 1 (.number 2)) 1 2] :=
  have h := sendFriendRequest_after_rejection twoUsers 1 (.number 2) (by decide) (by decide)
    (by decide) (by decide)
  ⟨by decide, h.2.1, h.2.2.2.1⟩

/-! ## Invariants of reachable stores -/

/-- C8, as the code has it: pending-uniqueness holds as long as every resolve call
carries a decision.  Starting from a store with no request and no edge (and any user
table, the empty one included), after every sequence of controller operations run one
after the other in which every resolve call has body status accepted or rejected, the
request table holds at most one pending row for each ordered pair (sender, receiver). -/
theorem pendingUnique_reachable (users : List User) (ops : List Op)
    (hdec : ∀ op ∈ ops, op.decided) :
    PendingUnique (run (Store.initial users) ops) :=
  run_induction_of PendingUnique Op.decided step_pendingUnique (Store.initial users)
    (fun _ _ => Nat.zero_le _) ops hdec

theorem pendingUnique_reachable_witness :
    ((run (Store.initial [mkUser 1, mkUser 2])
        [.sendRequest 1 (.number 2), .resolveRequest 1 2 .rejected,
          .sendRequest 1 (.number 2), .sendRequest 1 (.text 2)]).requests.filter
      (pendingClause 1 2)).length ≤ 1 :=
  pendingUnique_reachable [mkUser 1, mkUser 2]
    [.sendRequest 1 (.number 2), .resolveRequest 1 2 .rejected,
      .sendRequest 1 (.number 2), .sendRequest 1 (.text 2)]
    (by decide) 1 2

/-- C8 fails as stated: the handler writes whatever status the body holds.  User 1
sends a request to user 2, user 2 rejects it, user 1 sends again (request 2, pending),
and user 2 resolves request 1 once more with body status pending, which succeeds:
`reopenedStore` holds two pending rows from 1 to 2. -/
theorem pending_status_reopens_request :
    (handleFriendRequest
        (run twoUsers
          [.sendRequest 1 (.number 2), .resolveRequest 1 2 .rejected,
            .sendRequest 1 (.number 2)])
        1 .pending 2).2.code = 200 ∧
    reopenedStore.requests =
      [{ id := 1, sender_id := 1, receiver_id := 2, status := .pending },
        { id := 2, sender_id := 1, receiver_id := 2, status := .pending }] ∧
    (reopenedStore.requests.filter (pendingClause 1 2)).length = 2 ∧
    ¬ PendingUnique reopenedStore := by
  refine ⟨by decide, by decide, by decide, ?_⟩
  intro h
  have h12 := h 1 2
  revert h12
  decide

/-- C9: bidirectional edges.  Starting from a store with no request and no edge (and
any user table, the empty one included), after every sequence of controller
operations, each run to completion and with any body values, every accepted edge
(A, B) of the friend table has its accepted reverse edge (B, A) in the table. -/
theorem bidirectional_reachable (users : List User) (ops : List Op) :
    Bidirectional (run (Store.initial users) ops) :=
  run_induction Bidirectional step_bidirectional (Store.initial users)
    (fun _ hf => absurd hf (List.not_mem_nil _)) ops

/-- Request keys stay pairwise distinct along every sequence of controller operations. -/
theorem primaryKey_reachable (users : List User) (ops : List Op) :
    (run (Store.initial users) ops).PrimaryKey :=
  run_induction Store.PrimaryKey step_primaryKey (Store.initial users) List.nodup_nil ops

end IChat
